import Mathlib

/-!
Verification development for the `gemini_chess` repository (`src/main.py`).

The program orchestrates a chess match between two external move proposers,
validates every proposed move against the `python-chess` rules oracle,
records the match and supports replay of the saved record.

Embedding conventions:
* Board positions are carried as FEN strings, exactly as `ChessGameState.board`
  carries them in the source.
* The `python-chess` library is an external collaborator ("rules oracle").
  It is modelled as a structure of total functions over FEN strings, with
  `parse_san` returning `Option Move` (`none` models the exceptions the
  source catches with its bare `except:` clauses) and `valid_fen` modelling
  whether `chess.Board(fen)` succeeds.
* Python exceptions used by the code itself (`raise ValueError(...)`) are
  modelled with `Except String`; the catch-all handlers of the source become
  `Bool`-returning functions exactly where the source returns booleans.
* Python float evaluations are only ever produced (the literal `0.0`) and
  copied, never computed with, so they are carried as `Int` (0.0 becomes 0).
* The external AI proposer is modelled as an arbitrary function from the
  request index (0 = first request of the turn, 1 = the hint-assisted retry)
  to either a structured reply or an error message (network error, empty
  text, or malformed JSON all raise in the source and are caught together).
-/

namespace GeminiChess

/-- The standard chess starting position, `chess.STARTING_FEN`. -/
def STARTING_FEN : String := "rnbqkbnr/pppppppp/8/8/8/8/PPPPPPPP/RNBQKBNR w KQkq - 0 1"

/-- Structured reply of the move proposer (`ChessMoveResponse` in `main.py`). -/
structure ChessMoveResponse where
  move : String
  evaluation : Int
  explanation : String
deriving DecidableEq, Repr

/-- Authoritative game state (`ChessGameState` in `main.py`). -/
structure ChessGameState where
  board : String
  turn : String
  history : List ChessMoveResponse
  move_count : Nat
  game_over : Bool
  result : Option String
deriving DecidableEq, Repr

/-- `ChessGameState.new_game`. -/
def ChessGameState.new_game : ChessGameState :=
  { board := STARTING_FEN
    turn := "white"
    history := []
    move_count := 0
    game_over := false
    result := none }

/-- The rules oracle: the operations of `python-chess` that `main.py` uses,
abstracted over FEN strings.  `valid_fen` models whether `chess.Board(fen)`
succeeds; `parse_san` returns `none` when `board.parse_san` raises;
`push_fen` is `board.push(move); board.fen()`; `san` renders a move;
`is_game_over` and `result_str` are `board.is_game_over()` / `board.result()`. -/
structure Oracle (Move : Type) where
  valid_fen : String → Bool
  parse_san : String → String → Option Move
  legal_moves : String → List Move
  push_fen : String → Move → String
  san : String → Move → String
  is_game_over : String → Bool
  result_str : String → String

variable {Move : Type} [DecidableEq Move]

/-- `ChessGame.is_valid_move`: build the board from the stored FEN, parse the
SAN text, and check membership in the legal moves; any exception yields
`False`. -/
def is_valid_move (o : Oracle Move) (st : ChessGameState) (move_str : String) : Bool :=
  if o.valid_fen st.board then
    match o.parse_san st.board move_str with
    | none => false
    | some m => decide (m ∈ o.legal_moves st.board)
  else false

/-- `ChessGame.apply_move`: on success, pushes the move, stores the new FEN,
flips the side to move, increments the move count and, when the oracle reports
the game over on the new position, sets the terminal flag and the result.
Returns the success boolean together with the (possibly updated) state; any
exception or illegal move returns `false` with the state untouched. -/
def apply_move (o : Oracle Move) (st : ChessGameState) (move_str : String) :
    Bool × ChessGameState :=
  if o.valid_fen st.board then
    match o.parse_san st.board move_str with
    | none => (false, st)
    | some m =>
      if m ∈ o.legal_moves st.board then
        let newBoard := o.push_fen st.board m
        let st1 : ChessGameState :=
          { st with
            board := newBoard
            turn := if st.turn = "white" then "black" else "white"
            move_count := st.move_count + 1 }
        if o.is_game_over newBoard then
          (true, { st1 with game_over := true, result := some (o.result_str newBoard) })
        else
          (true, st1)
      else (false, st)
  else (false, st)

/-- The fallback of `ChessGame.get_ai_move`'s `except` branch: the first legal
move in the oracle's enumeration order with evaluation `0.0` and a rationale
naming the error; when no legal move exists, `raise ValueError("No legal moves
available")`. -/
def fallback_move (o : Oracle Move) (st : ChessGameState) (e : String) :
    Except String ChessMoveResponse :=
  match o.legal_moves st.board with
  | [] => .error "No legal moves available"
  | m :: _ => .ok ⟨o.san st.board m, 0, "Fallback move due to AI error: " ++ e⟩

/-- `ChessGame.get_ai_move`.  `p 0` is the first proposer request, `p 1` the
hint-assisted retry; `.error e` models a request that raised, returned empty
text, or returned malformed JSON (all caught by the outer `except`, which then
falls back).  Note that a well-formed second reply is returned *without* being
validated, exactly as in the source. -/
def get_ai_move (o : Oracle Move) (st : ChessGameState)
    (p : Nat → Except String ChessMoveResponse) : Except String ChessMoveResponse :=
  match p 0 with
  | .error e => fallback_move o st e
  | .ok r1 =>
    if is_valid_move o st r1.move then .ok r1
    else
      match p 1 with
      | .error e => fallback_move o st e
      | .ok r2 => .ok r2

/-- `ChessGame.play_turn`: raises when the game is already over, otherwise
obtains a proposer reply, applies it, and appends it to the history; a failed
application raises `"Failed to apply move: ..."`. -/
def play_turn (o : Oracle Move) (st : ChessGameState)
    (p : Nat → Except String ChessMoveResponse) :
    Except String (ChessMoveResponse × ChessGameState) :=
  if st.game_over then .error "Game is already over"
  else
    match get_ai_move o st p with
    | .error e => .error e
    | .ok resp =>
      match apply_move o st resp.move with
      | (true, st1) => .ok (resp, { st1 with history := st1.history ++ [resp] })
      | (false, _) => .error ("Failed to apply move: " ++ resp.move)

/-- A concrete toy rules oracle used to exercise the control flow on closed
inputs: from any position the single legal move is `0`, written `"mv"`, and
pushing it appends a marker to the FEN; the game never ends. -/
def toy_oracle : Oracle Nat :=
  { valid_fen := fun _ => true
    parse_san := fun _ s => if s = "mv" then some 0 else none
    legal_moves := fun _ => [0]
    push_fen := fun f _ => f ++ "+"
    san := fun _ _ => "mv"
    is_game_over := fun _ => false
    result_str := fun _ => "*" }

/-- Proposer stream that suggests two well-formed but illegal moves. -/
def cex_props : Nat → Except String ChessMoveResponse :=
  fun n => if n = 0 then .ok ⟨"zz1", 7, "first guess"⟩ else .ok ⟨"zz2", 3, "second guess"⟩

/-- One entry of the in-memory `game_log` built by `ChessGame.play_full_game`;
all fields are read from the state *after* the move was applied. -/
structure LogEntry where
  move_number : Nat
  color : String
  move : String
  evaluation : Int
  explanation : String
  fen : String
deriving DecidableEq, Repr

/-- The dictionary appended to `game_log` after a successful turn: `st1` is the
state after the move.  `color` is `"white"` when the post-move move count is
odd, and `fen` is the post-move board. -/
def mk_log_entry (st1 : ChessGameState) (r : ChessMoveResponse) : LogEntry :=
  { move_number := st1.move_count
    color := if st1.move_count % 2 = 1 then "white" else "black"
    move := r.move
    evaluation := r.evaluation
    explanation := r.explanation
    fen := st1.board }

/-- The `game_summary` dictionary returned by `ChessGame.play_full_game`. -/
structure GameSummary where
  date : String
  result : String
  total_moves : Nat
  final_fen : String
  game_over : Bool
  moves : List LogEntry
deriving DecidableEq, Repr

/-- The `while` loop of `ChessGame.play_full_game`, with explicit fuel.  The
loop runs while the game is not over and the move count is below `max_moves`;
a turn that raises breaks out of the loop; each successful turn appends one
log entry built from the post-move state.  Every successful turn increments
the move count, so fuel `max_moves + 1` is enough for the fuel never to run
out (proved below); with such fuel this function computes exactly what the
unbounded `while` loop computes.  The proposer `props` may inspect the full
current state (the source builds the prompt from it) and is queried per
request index within the turn. -/
def play_full_game_loop (o : Oracle Move)
    (props : ChessGameState → Nat → Except String ChessMoveResponse)
    (max_moves : Nat) :
    Nat → ChessGameState → List LogEntry → ChessGameState × List LogEntry
  | 0, st, log => (st, log)
  | fuel + 1, st, log =>
    if st.game_over = true ∨ max_moves ≤ st.move_count then (st, log)
    else
      match play_turn o st (props st) with
      | .error _ => (st, log)
      | .ok (r, st1) =>
        play_full_game_loop o props max_moves fuel st1 (log ++ [mk_log_entry st1 r])

/-- Python's `x or "Game incomplete"` on the optional result string: both
`None` and the empty string are falsy. -/
def result_or_incomplete : Option String → String
  | none => "Game incomplete"
  | some r => if r = "" then "Game incomplete" else r

/-- `ChessGame.play_full_game`: runs the turn loop from `st` and packages the
summary dictionary; also returns the final state.  The source's default for
`max_moves` is 100 (see `main_game_record`). -/
def play_full_game (o : Oracle Move)
    (props : ChessGameState → Nat → Except String ChessMoveResponse)
    (st : ChessGameState) (date : String) (max_moves : Nat) :
    GameSummary × ChessGameState :=
  let r := play_full_game_loop o props max_moves (max_moves + 1) st []
  ({ date := date
     result := result_or_incomplete r.1.result
     total_moves := r.1.move_count
     final_fen := r.1.board
     game_over := r.1.game_over
     moves := r.2 }, r.1)

/-- `main_game`: a fresh game played with the default `max_moves=100`. -/
def main_game_record (o : Oracle Move)
    (props : ChessGameState → Nat → Except String ChessMoveResponse)
    (date : String) : GameSummary × ChessGameState :=
  play_full_game o props ChessGameState.new_game date 100

/-- The log is *chained* from `fen`: each entry's move parses as a legal move
in the position left by the previous entry (initially `fen`), and the entry's
recorded `fen` is the position resulting from pushing that move. -/
def Chained (o : Oracle Move) : String → List LogEntry → Prop
  | _, [] => True
  | fen, e :: rest =>
    (match o.parse_san fen e.move with
     | none => False
     | some m => m ∈ o.legal_moves fen ∧ e.fen = o.push_fen fen m) ∧
    Chained o e.fen rest

/-- The position from which the `j`-th (0-based) log entry was played: the
starting `fen` for the first entry, the previous entry's recorded `fen`
otherwise. -/
def prev_fen (fen : String) (log : List LogEntry) : Nat → String
  | 0 => fen
  | j + 1 =>
    match log.get? j with
    | some e => e.fen
    | none => fen

/-- The board held by the state after the last logged move (the starting `fen`
when nothing is logged). -/
def last_fen (fen : String) (log : List LogEntry) : String :=
  (log.map LogEntry.fen).getLastD fen

/-- The board sequence displayed by `replay_game`'s move loop: starting from
`fen`, each recorded move is re-parsed against the oracle and pushed; a move
whose parse raises is reported and *skipped* (`continue`), leaving the board
unchanged.  The stored `fen` fields are never used for reconstruction. -/
def replay_boards (o : Oracle Move) : String → List LogEntry → List String
  | _, [] => []
  | fen, e :: rest =>
    match o.parse_san fen e.move with
    | none => replay_boards o fen rest
    | some m => o.push_fen fen m :: replay_boards o (o.push_fen fen m) rest

/-- What `replay_game` shows for a loaded record: the header data read from
the record and the reconstructed board sequence (replay starts from
`chess.Board()`, the standard starting position). -/
structure ReplayOutput where
  total_moves : Nat
  result : String
  boards : List String
deriving DecidableEq, Repr

/-- `replay_game`, applied to a loaded record.  Persistence (`json.dump` /
`json.load` of the summary dictionary) is modelled as the identity on the
record. -/
def replay_game (o : Oracle Move) (record : GameSummary) : ReplayOutput :=
  { total_moves := record.total_moves
    result := record.result
    boards := replay_boards o STARTING_FEN record.moves }

/-- The states reachable by the program: a fresh game, advanced by successful
turns (with arbitrary proposer behavior at each turn). -/
inductive Reachable (o : Oracle Move) : ChessGameState → Prop
  | base : Reachable o ChessGameState.new_game
  | step (st : ChessGameState) (p : Nat → Except String ChessMoveResponse)
      (r : ChessMoveResponse) (st1 : ChessGameState) :
      Reachable o st → play_turn o st p = .ok (r, st1) → Reachable o st1

/-- `move_str` is an exact legal SAN move in position `fen`: the oracle parses
it and the parsed move is legal there. -/
def exact_legal_san (o : Oracle Move) (fen move_str : String) : Prop :=
  match o.parse_san fen move_str with
  | none => False
  | some m => m ∈ o.legal_moves fen

/-- Decimal rendering of a natural number (the digits of Python's `"%d"`). -/
def nat_decimal (n : Nat) : List Char :=
  if n = 0 then ['0'] else ((Nat.digits 10 n).map Nat.digitChar).reverse

/-- Python's `f"{n:02d}"`: the decimal rendering zero-padded to width 2. -/
def pad2 (n : Nat) : String :=
  ⟨if n < 10 then '0' :: nat_decimal n else nat_decimal n⟩

/-- `os.path.join("games", f"game_{date_str}.json")`. -/
def game_filepath (date : String) : String :=
  "games/game_" ++ date ++ ".json"

/-- `os.path.join("games", f"game_{date_str}_{counter:02d}.json")`. -/
def suffixed_filepath (date : String) (counter : Nat) : String :=
  "games/game_" ++ date ++ "_" ++ pad2 counter ++ ".json"

/-- The collision loop of `ChessGame.save_game`, with explicit fuel: while the
candidate path already exists, replace it by the suffixed name with the
current counter and increment the counter.  Fuel `existing.length + 1` always
suffices (proved below), so with that fuel this computes exactly what the
unbounded `while` loop computes. -/
def save_filepath_loop (date : String) (existing : List String) :
    Nat → Nat → String → String
  | 0, _, filepath => filepath
  | fuel + 1, counter, filepath =>
    if filepath ∈ existing then
      save_filepath_loop date existing fuel (counter + 1) (suffixed_filepath date counter)
    else filepath

/-- The path `ChessGame.save_game` writes to, given the set of already
existing paths: the timestamp-keyed name, disambiguated by the incrementing
counter starting at 1. -/
def save_filepath (date : String) (existing : List String) : String :=
  save_filepath_loop date existing (existing.length + 1) 1 (game_filepath date)

/-- Concrete witness data: the summary of a one-move toy match. -/
def w_summary : GameSummary :=
  { date := "d", result := "Game incomplete", total_moves := 1,
    final_fen := STARTING_FEN ++ "+", game_over := false,
    moves := [{ move_number := 1, color := "white", move := "mv", evaluation := 1,
                explanation := "go", fen := STARTING_FEN ++ "+" }] }

/-- Concrete witness data: the final state of a one-move toy match. -/
def w_state : ChessGameState :=
  { board := STARTING_FEN ++ "+", turn := "black",
    history := [{ move := "mv", evaluation := 1, explanation := "go" }],
    move_count := 1, game_over := false, result := none }

/-- Concrete witness data: the single log entry of a one-move toy match. -/
def w_entry : LogEntry :=
  { move_number := 1, color := "white", move := "mv", evaluation := 1,
    explanation := "go", fen := STARTING_FEN ++ "+" }

/-- A turn attempt that hard-stopped (raised out of `play_turn`). -/
def halted (x : Except String (ChessMoveResponse × ChessGameState)) : Bool :=
  match x with
  | .error _ => true
  | .ok _ => false

/-- A proposer whose every reply is the toy oracle's legal move. -/
def good_reqs : Nat → Except String ChessMoveResponse :=
  fun _ => .ok ⟨"mv", 1, "go"⟩

/-- The state-indexed form of `good_reqs`. -/
def good_props : ChessGameState → Nat → Except String ChessMoveResponse :=
  fun _ => good_reqs

/-- A proposer whose every request raises. -/
def err_props : Nat → Except String ChessMoveResponse :=
  fun _ => .error "boom"

/-- Loop invariant tying the match driver's state to its in-memory log:
the move count equals the log length, the state's board is the last logged
position, the log is chained from the starting position, entries are numbered
`1, 2, ...` with white on odd entries, and the result is unset while the game
is not over. -/
def LogInv (o : Oracle Move) (st : ChessGameState) (log : List LogEntry) : Prop :=
  st.move_count = log.length ∧
  st.board = last_fen STARTING_FEN log ∧
  Chained o STARTING_FEN log ∧
  (∀ j e, log.get? j = some e →
    e.move_number = j + 1 ∧ e.color = (if (j + 1) % 2 = 1 then "white" else "black")) ∧
  (st.game_over = false → st.result = none)

/-! ### Helper lemmas -/

/-- A successful `apply_move` went through the full update path: the FEN was
valid, the text parsed to a legal move, and the new state is exactly the
pushed position with flipped turn, incremented count, terminal flag and
result re-derived from the oracle on the new position. -/
theorem apply_move_ok {o : Oracle Move} {st st1 : ChessGameState}
    {s : String} (h : apply_move o st s = (true, st1)) :
    o.valid_fen st.board = true ∧
    ∃ m, o.parse_san st.board s = some m ∧ m ∈ o.legal_moves st.board ∧
      st1 = { st with
        board := o.push_fen st.board m
        turn := if st.turn = "white" then "black" else "white"
        move_count := st.move_count + 1
        game_over := st.game_over || o.is_game_over (o.push_fen st.board m)
        result := if o.is_game_over (o.push_fen st.board m) then
            some (o.result_str (o.push_fen st.board m)) else st.result } := by
  by_cases hv : o.valid_fen st.board = true
  · refine ⟨hv, ?_⟩
    rcases hp : o.parse_san st.board s with _ | m
    · simp [apply_move, hv, hp] at h
    · by_cases hm : m ∈ o.legal_moves st.board
      · refine ⟨m, rfl, hm, ?_⟩
        by_cases hg : o.is_game_over (o.push_fen st.board m) = true
        · simp [apply_move, hv, hp, hm, hg] at h
          simp [← h, hg]
        · simp [apply_move, hv, hp, hm, hg] at h
          simp [← h, hg]
      · simp [apply_move, hv, hp, hm] at h
  · simp [apply_move, hv] at h

/-- Conversely, a parsable legal move in a valid FEN applies successfully. -/
theorem apply_move_eq_of {o : Oracle Move} {st : ChessGameState}
    {s : String} {m : Move} (hv : o.valid_fen st.board = true)
    (hp : o.parse_san st.board s = some m) (hm : m ∈ o.legal_moves st.board) :
    apply_move o st s =
      (true, { st with
        board := o.push_fen st.board m
        turn := if st.turn = "white" then "black" else "white"
        move_count := st.move_count + 1
        game_over := st.game_over || o.is_game_over (o.push_fen st.board m)
        result := if o.is_game_over (o.push_fen st.board m) then
            some (o.result_str (o.push_fen st.board m)) else st.result }) := by
  by_cases hg : o.is_game_over (o.push_fen st.board m) = true
  · simp [apply_move, hv, hp, hm, hg]
  · simp [apply_move, hv, hp, hm, hg]

/-- A failed `apply_move` returns the state untouched. -/
theorem apply_move_false {o : Oracle Move} {st st' : ChessGameState}
    {s : String} (h : apply_move o st s = (false, st')) : st' = st := by
  by_cases hv : o.valid_fen st.board = true
  · rcases hp : o.parse_san st.board s with _ | m
    · simp [apply_move, hv, hp] at h
      exact h.symm
    · by_cases hm : m ∈ o.legal_moves st.board
      · by_cases hg : o.is_game_over (o.push_fen st.board m) = true
        · simp [apply_move, hv, hp, hm, hg] at h
        · simp [apply_move, hv, hp, hm, hg] at h
      · simp [apply_move, hv, hp, hm] at h
        exact h.symm
  · simp [apply_move, hv] at h
    exact h.symm

/-- A successful `play_turn` passed the terminal guard, got a proposer reply,
applied it successfully and appended it to the history. -/
theorem play_turn_ok {o : Oracle Move} {st st1 : ChessGameState}
    {p : Nat → Except String ChessMoveResponse} {r : ChessMoveResponse}
    (h : play_turn o st p = .ok (r, st1)) :
    st.game_over = false ∧ get_ai_move o st p = .ok r ∧
    ∃ st', apply_move o st r.move = (true, st') ∧
      st1 = { st' with history := st'.history ++ [r] } := by
  by_cases hgo : st.game_over = true
  · simp [play_turn, hgo] at h
  · have hgo' : st.game_over = false := by simpa using hgo
    rcases hga : get_ai_move o st p with e | resp
    · simp [play_turn, hgo', hga] at h
    · rcases ha : apply_move o st resp.move with ⟨b, st'⟩
      cases b
      · simp [play_turn, hgo', hga, ha] at h
      · simp [play_turn, hgo', hga, ha] at h
        obtain ⟨hr, hst⟩ := h
        subst hr
        exact ⟨hgo', rfl, st', ha, hst.symm⟩

/-- A successful turn advances the move count by exactly one. -/
theorem play_turn_move_count {o : Oracle Move} {st st1 : ChessGameState}
    {p : Nat → Except String ChessMoveResponse} {r : ChessMoveResponse}
    (h : play_turn o st p = .ok (r, st1)) : st1.move_count = st.move_count + 1 := by
  obtain ⟨_, _, st', ha, hst1⟩ := play_turn_ok h
  obtain ⟨_, m, _, _, hchar⟩ := apply_move_ok ha
  rw [hst1, hchar]

theorem last_fen_cons (f : String) (a : LogEntry) (l : List LogEntry) :
    last_fen f (a :: l) = last_fen a.fen l := by
  simp only [last_fen, List.map_cons, List.getLastD_cons]

theorem last_fen_concat (f : String) (l : List LogEntry) (e : LogEntry) :
    last_fen f (l ++ [e]) = e.fen := by
  simp only [last_fen, List.map_append, List.map_cons, List.map_nil, List.getLastD_concat]

/-- Appending an entry that extends the chain from the last logged position
keeps the log chained. -/
theorem chained_append {o : Oracle Move} {f : String} {l : List LogEntry} {e : LogEntry}
    (hc : Chained o f l)
    (he : match o.parse_san (last_fen f l) e.move with
      | none => False
      | some m => m ∈ o.legal_moves (last_fen f l) ∧
          e.fen = o.push_fen (last_fen f l) m) :
    Chained o f (l ++ [e]) := by
  induction l generalizing f with
  | nil => exact ⟨he, trivial⟩
  | cons a t ih =>
    obtain ⟨ha, ht⟩ := hc
    rw [last_fen_cons] at he
    exact ⟨ha, ih ht he⟩

theorem prev_fen_cons (f : String) (a : LogEntry) (l : List LogEntry) (j : Nat)
    (h : j < l.length) : prev_fen f (a :: l) (j + 1) = prev_fen a.fen l j := by
  cases j with
  | zero => simp [prev_fen]
  | succ k =>
    have hk : k < l.length := Nat.lt_of_succ_lt h
    have hsome : l[k]? = some (l.get ⟨k, hk⟩) := by
      rw [List.getElem?_eq_getElem hk]
      rfl
    simp [prev_fen, hsome]

/-- In a chained log, every entry's recorded position is the position obtained
by pushing the entry's (re-parsed) move onto the previous entry's position. -/
theorem chained_index {o : Oracle Move} {f : String} {l : List LogEntry} {j : Nat}
    {e : LogEntry} (hc : Chained o f l) (he : l.get? j = some e) :
    match o.parse_san (prev_fen f l j) e.move with
    | none => False
    | some m => e.fen = o.push_fen (prev_fen f l j) m := by
  induction l generalizing f j with
  | nil => simp at he
  | cons a t ih =>
    obtain ⟨ha, ht⟩ := hc
    cases j with
    | zero =>
      have hea : a = e := by simpa using he
      subst hea
      cases hp : o.parse_san f a.move with
      | none => rw [hp] at ha; exact ha.elim
      | some m =>
        rw [hp] at ha
        simpa [prev_fen, hp] using ha.2
    | succ k =>
      have he' : t.get? k = some e := by simpa using he
      have hk : k < t.length := by
        obtain ⟨hlt, -⟩ := List.get?_eq_some.mp he'
        exact hlt
      rw [prev_fen_cons f a t k hk]
      exact ih ht he'

/-- Replaying a chained log from its starting position regenerates exactly the
recorded board sequence. -/
theorem replay_boards_of_chained {o : Oracle Move} {f : String} {l : List LogEntry}
    (hc : Chained o f l) : replay_boards o f l = l.map LogEntry.fen := by
  induction l generalizing f with
  | nil => rfl
  | cons a t ih =>
    obtain ⟨ha, ht⟩ := hc
    cases hp : o.parse_san f a.move with
    | none => rw [hp] at ha; exact ha.elim
    | some m =>
      rw [hp] at ha
      obtain ⟨-, hfen⟩ := ha
      simp only [replay_boards, hp, ← hfen, List.map_cons]
      rw [ih ht]

/-- One successful turn preserves the match-log invariant. -/
theorem log_inv_step {o : Oracle Move} {st st1 : ChessGameState} {log : List LogEntry}
    {p : Nat → Except String ChessMoveResponse} {r : ChessMoveResponse}
    (hinv : LogInv o st log) (h : play_turn o st p = .ok (r, st1)) :
    LogInv o st1 (log ++ [mk_log_entry st1 r]) := by
  obtain ⟨hcount, hboard, hchain, hnum, hres⟩ := hinv
  obtain ⟨hgo, hga, st', ha, hst1⟩ := play_turn_ok h
  obtain ⟨hv, m, hp, hm, hchar⟩ := apply_move_ok ha
  have hb1 : st1.board = o.push_fen st.board m := by rw [hst1, hchar]
  have hc1 : st1.move_count = st.move_count + 1 := by rw [hst1, hchar]
  have hgo1 : st1.game_over = (st.game_over || o.is_game_over (o.push_fen st.board m)) := by
    rw [hst1, hchar]
  have hr1 : st1.result = (if o.is_game_over (o.push_fen st.board m) then
      some (o.result_str (o.push_fen st.board m)) else st.result) := by
    rw [hst1, hchar]
  refine ⟨?_, ?_, ?_, ?_, ?_⟩
  · simp [hc1, hcount]
  · rw [last_fen_concat]
    rfl
  · apply chained_append hchain
    rw [← hboard]
    have hmove : (mk_log_entry st1 r).move = r.move := rfl
    rw [hmove, hp]
    exact ⟨hm, hb1⟩
  · intro j e hje
    by_cases hj : j < log.length
    · rw [List.get?_append hj] at hje
      exact hnum j e hje
    · have hjlen : j = log.length := by
        obtain ⟨hlt, -⟩ := List.get?_eq_some.mp hje
        simp at hlt
        omega
      subst hjlen
      rw [List.get?_concat_length] at hje
      have hee : mk_log_entry st1 r = e := by simpa using hje
      subst hee
      constructor
      · simp [mk_log_entry, hc1, hcount]
      · simp [mk_log_entry, hc1, hcount]
  · intro hng
    rw [hgo1] at hng
    simp at hng
    rw [hr1]
    simp [hng.2]
    exact hres hgo

/-- The loop stops at once when the continue condition fails. -/
theorem loop_succ_stop {o : Oracle Move}
    {props : ChessGameState → Nat → Except String ChessMoveResponse}
    {max_moves n : Nat} {st : ChessGameState} {log : List LogEntry}
    (hguard : st.game_over = true ∨ max_moves ≤ st.move_count) :
    play_full_game_loop o props max_moves (n + 1) st log = (st, log) := by
  unfold play_full_game_loop
  rw [if_pos hguard]

/-- The loop stops at once when the turn hard-stops. -/
theorem loop_succ_error {o : Oracle Move}
    {props : ChessGameState → Nat → Except String ChessMoveResponse}
    {max_moves n : Nat} {st : ChessGameState} {log : List LogEntry} {e : String}
    (hguard : ¬(st.game_over = true ∨ max_moves ≤ st.move_count))
    (hpt : play_turn o st (props st) = .error e) :
    play_full_game_loop o props max_moves (n + 1) st log = (st, log) := by
  unfold play_full_game_loop
  rw [if_neg hguard, hpt]

/-- The loop advances through a successful turn, appending its log entry. -/
theorem loop_succ_ok {o : Oracle Move}
    {props : ChessGameState → Nat → Except String ChessMoveResponse}
    {max_moves n : Nat} {st st1 : ChessGameState} {log : List LogEntry}
    {r : ChessMoveResponse}
    (hguard : ¬(st.game_over = true ∨ max_moves ≤ st.move_count))
    (hpt : play_turn o st (props st) = .ok (r, st1)) :
    play_full_game_loop o props max_moves (n + 1) st log =
      play_full_game_loop o props max_moves n st1 (log ++ [mk_log_entry st1 r]) := by
  conv_lhs => unfold play_full_game_loop
  rw [if_neg hguard, hpt]

/-- The match loop preserves the match-log invariant. -/
theorem loop_inv (o : Oracle Move)
    (props : ChessGameState → Nat → Except String ChessMoveResponse) (max_moves : Nat)
    (fuel : Nat) :
    ∀ st log, LogInv o st log →
      LogInv o (play_full_game_loop o props max_moves fuel st log).1
        (play_full_game_loop o props max_moves fuel st log).2 := by
  induction fuel with
  | zero =>
    intro st log h
    simpa [play_full_game_loop] using h
  | succ n ih =>
    intro st log h
    by_cases hguard : st.game_over = true ∨ max_moves ≤ st.move_count
    · rw [loop_succ_stop hguard]
      exact h
    · rcases hpt : play_turn o st (props st) with e | ⟨r, st1⟩
      · rw [loop_succ_error hguard hpt]
        exact h
      · rw [loop_succ_ok hguard hpt]
        exact ih st1 (log ++ [mk_log_entry st1 r]) (log_inv_step h hpt)

/-- With enough fuel the match loop only stops for one of the three reasons:
terminal state, move cap reached, or a hard-stopped turn. -/
theorem loop_exit (o : Oracle Move)
    (props : ChessGameState → Nat → Except String ChessMoveResponse) (max_moves : Nat)
    (fuel : Nat) :
    ∀ st log, max_moves < st.move_count + fuel →
      (play_full_game_loop o props max_moves fuel st log).1.game_over = true ∨
      max_moves ≤ (play_full_game_loop o props max_moves fuel st log).1.move_count ∨
      halted (play_turn o (play_full_game_loop o props max_moves fuel st log).1
        (props (play_full_game_loop o props max_moves fuel st log).1)) = true := by
  induction fuel with
  | zero =>
    intro st log hlt
    simp only [play_full_game_loop]
    exact Or.inr (Or.inl (by omega))
  | succ n ih =>
    intro st log hlt
    by_cases hguard : st.game_over = true ∨ max_moves ≤ st.move_count
    · rw [loop_succ_stop hguard]
      rcases hguard with hg | hg
      · exact Or.inl hg
      · exact Or.inr (Or.inl hg)
    · rcases hpt : play_turn o st (props st) with e | ⟨r, st1⟩
      · rw [loop_succ_error hguard hpt]
        exact Or.inr (Or.inr (by simp [halted, hpt]))
      · rw [loop_succ_ok hguard hpt]
        have hc1 := play_turn_move_count hpt
        exact ih st1 (log ++ [mk_log_entry st1 r]) (by omega)

/-- The invariant holds at the start of a fresh match. -/
theorem log_inv_new_game (o : Oracle Move) : LogInv o ChessGameState.new_game [] := by
  refine ⟨rfl, rfl, trivial, ?_, fun _ => rfl⟩
  intro j e hje
  simp at hje

/-! ### Claim theorems -/

/-- C3: terminal is absorbing.  On a `GameState` whose terminal flag is set,
a turn (for any proposer behavior, hence any proposed move text) is rejected
with the "Game is already over" condition; since the rejection carries no new
state, the board, turn, move count, history and result are all unchanged. -/
theorem terminal_absorbing (o : Oracle Move) (st : ChessGameState)
    (p : Nat → Except String ChessMoveResponse) (h : st.game_over = true) :
    play_turn o st p = .error "Game is already over" := by
  simp [play_turn, h]

theorem terminal_absorbing_witness :
    ({ ChessGameState.new_game with game_over := true } : ChessGameState).game_over = true ∧
    play_turn toy_oracle { ChessGameState.new_game with game_over := true } cex_props =
      .error "Game is already over" :=
  ⟨rfl, terminal_absorbing toy_oracle { ChessGameState.new_game with game_over := true }
    cex_props rfl⟩

/-- C5: a rejected `apply_move` (illegal, ambiguous or unparseable text — every
failure the source's catch-all turns into `return False`) leaves the
`GameState` entirely unchanged, and the caller receives the distinct rejection
value `false` rather than a propagated exception (in this embedding the
absence of exceptions is the totality of `apply_move` as a `Bool × _`-valued
function). -/
theorem rejected_move_preserves_state (o : Oracle Move) (st : ChessGameState)
    (s : String) (h : (apply_move o st s).1 = false) :
    (apply_move o st s).2 = st := by
  rcases ha : apply_move o st s with ⟨b, st'⟩
  rw [ha] at h
  simp at h
  subst h
  simpa using apply_move_false ha

theorem rejected_move_preserves_state_witness :
    (apply_move toy_oracle ChessGameState.new_game "zz1").1 = false ∧
    (apply_move toy_oracle ChessGameState.new_game "zz1").2 = ChessGameState.new_game :=
  ⟨rfl, rejected_move_preserves_state toy_oracle ChessGameState.new_game "zz1" rfl⟩

/-- C9: for a state whose board is a valid FEN, validation and application are
total boolean functions (the embedding types them so, mirroring the source's
catch-all handlers) which agree on every input string, and validation accepts
exactly the strings that parse to a legal move of the current position —
hence both return `false` on any other string (empty, malformed, ambiguous,
non-SAN, or illegal). -/
theorem validation_totality (o : Oracle Move) (st : ChessGameState) (s : String)
    (hfen : o.valid_fen st.board = true) :
    (apply_move o st s).1 = is_valid_move o st s ∧
    (is_valid_move o st s = true ↔ exact_legal_san o st.board s) := by
  rcases hp : o.parse_san st.board s with _ | m
  · simp [apply_move, is_valid_move, exact_legal_san, hfen, hp]
  · by_cases hm : m ∈ o.legal_moves st.board
    · by_cases hg : o.is_game_over (o.push_fen st.board m) = true
      · simp [apply_move, is_valid_move, exact_legal_san, hfen, hp, hm, hg]
      · simp [apply_move, is_valid_move, exact_legal_san, hfen, hp, hm, hg]
    · simp [apply_move, is_valid_move, exact_legal_san, hfen, hp, hm]

theorem validation_totality_witness :
    toy_oracle.valid_fen ChessGameState.new_game.board = true ∧
    ((apply_move toy_oracle ChessGameState.new_game "e4").1 =
      is_valid_move toy_oracle ChessGameState.new_game "e4" ∧
    (is_valid_move toy_oracle ChessGameState.new_game "e4" = true ↔
      exact_legal_san toy_oracle ChessGameState.new_game.board "e4")) :=
  ⟨rfl, validation_totality toy_oracle ChessGameState.new_game "e4" rfl⟩

/-- C6: the Turn Controller's proposer budget and resolution guarantee.
`get_ai_move` depends on the proposer only through requests 0 and 1 (at most
two requests, never more retries), and a turn always resolves: when
`play_turn` succeeds the produced move was a legal move of the position and
was applied (move count advanced); when it raises, the match loop stops at
once with the state and log unchanged (the match halts entirely). -/
theorem turn_budget_and_resolution (o : Oracle Move) (st : ChessGameState)
    (props : ChessGameState → Nat → Except String ChessMoveResponse)
    (q : Nat → Except String ChessMoveResponse) (max_moves fuel : Nat)
    (log : List LogEntry) (hq0 : props st 0 = q 0) (hq1 : props st 1 = q 1) :
    get_ai_move o st (props st) = get_ai_move o st q ∧
    (match play_turn o st (props st) with
     | .ok (r, st1) => is_valid_move o st r.move = true ∧
         st1.move_count = st.move_count + 1
     | .error _ =>
         play_full_game_loop o props max_moves (fuel + 1) st log = (st, log)) := by
  constructor
  · unfold get_ai_move
    rw [hq0, hq1]
  · rcases hpt : play_turn o st (props st) with e | ⟨r, st1⟩
    · simp only []
      unfold play_full_game_loop
      by_cases hguard : st.game_over = true ∨ max_moves ≤ st.move_count
      · simp [hguard]
      · simp [hguard, hpt]
    · simp only []
      obtain ⟨hgo, hga, st', ha, hst1⟩ := play_turn_ok hpt
      obtain ⟨hv, m, hp, hm, hchar⟩ := apply_move_ok ha
      constructor
      · simp [is_valid_move, hv, hp, hm]
      · rw [hst1, hchar]

theorem turn_budget_and_resolution_witness :
    good_props ChessGameState.new_game 0 = good_reqs 0 ∧
    good_props ChessGameState.new_game 1 = good_reqs 1 ∧
    (get_ai_move toy_oracle ChessGameState.new_game (good_props ChessGameState.new_game) =
      get_ai_move toy_oracle ChessGameState.new_game good_reqs ∧
    (match play_turn toy_oracle ChessGameState.new_game (good_props ChessGameState.new_game) with
     | .ok (r, st1) => is_valid_move toy_oracle ChessGameState.new_game r.move = true ∧
         st1.move_count = ChessGameState.new_game.move_count + 1
     | .error _ =>
         play_full_game_loop toy_oracle good_props 5 1 ChessGameState.new_game [] =
           (ChessGameState.new_game, []))) :=
  ⟨rfl, rfl, turn_budget_and_resolution toy_oracle ChessGameState.new_game good_props
    good_reqs 5 0 [] rfl rfl⟩

/-- C1, counterexample: with both proposer suggestions well-formed but illegal
(the toy position's only legal move is `"mv"`, rendered from the oracle's
first enumerated legal move), `get_ai_move` returns the second suggestion
*unvalidated* instead of falling back to the first enumerated legal move, and
the turn then fails to apply it — the turn does not resolve with the fallback
move, contradicting the claim. -/
theorem retry_not_validated_cex :
    is_valid_move toy_oracle ChessGameState.new_game "zz1" = false ∧
    is_valid_move toy_oracle ChessGameState.new_game "zz2" = false ∧
    toy_oracle.legal_moves ChessGameState.new_game.board = [0] ∧
    toy_oracle.san ChessGameState.new_game.board 0 = "mv" ∧
    get_ai_move toy_oracle ChessGameState.new_game cex_props =
      .ok ⟨"zz2", 3, "second guess"⟩ ∧
    play_turn toy_oracle ChessGameState.new_game cex_props =
      .error "Failed to apply move: zz2" :=
  ⟨rfl, rfl, rfl, rfl, rfl, rfl⟩

/-- C1, amended: when the proposer errors or returns empty/malformed output —
on the first request, or on the retry after an invalid first suggestion — the
Turn Controller resolves the turn with the first legal move in the oracle's
enumeration order, evaluation `0.0`, and a rationale stating the fallback
reason, and this move is applied successfully.  (When the retry instead
returns a *well-formed* reply whose move is illegal, the reply is returned
without re-validation and the turn hard-stops; see the counterexample.) -/
theorem fallback_on_proposer_failure (o : Oracle Move) (st : ChessGameState)
    (p : Nat → Except String ChessMoveResponse) (e : String) (m0 : Move)
    (rest : List Move) (hgo : st.game_over = false)
    (hfen : o.valid_fen st.board = true)
    (hlm : o.legal_moves st.board = m0 :: rest)
    (hrt : o.parse_san st.board (o.san st.board m0) = some m0)
    (hfail : p 0 = .error e ∨
      ∃ r1, p 0 = .ok r1 ∧ is_valid_move o st r1.move = false ∧ p 1 = .error e) :
    get_ai_move o st p =
      .ok ⟨o.san st.board m0, 0, "Fallback move due to AI error: " ++ e⟩ ∧
    (apply_move o st (o.san st.board m0)).1 = true ∧
    (apply_move o st (o.san st.board m0)).2.move_count = st.move_count + 1 ∧
    play_turn o st p =
      .ok (⟨o.san st.board m0, 0, "Fallback move due to AI error: " ++ e⟩,
        { (apply_move o st (o.san st.board m0)).2 with
            history := (apply_move o st (o.san st.board m0)).2.history ++
              [⟨o.san st.board m0, 0, "Fallback move due to AI error: " ++ e⟩] }) := by
  have hm0 : m0 ∈ o.legal_moves st.board := by rw [hlm]; exact List.mem_cons_self m0 rest
  have hga : get_ai_move o st p =
      .ok ⟨o.san st.board m0, 0, "Fallback move due to AI error: " ++ e⟩ := by
    rcases hfail with h0 | ⟨r1, h0, hbad, h1⟩
    · unfold get_ai_move
      rw [h0]
      simp [fallback_move, hlm]
    · unfold get_ai_move
      rw [h0]
      simp only [hbad, Bool.false_eq_true, if_false]
      rw [h1]
      simp [fallback_move, hlm]
  have happ := apply_move_eq_of hfen hrt hm0
  refine ⟨hga, ?_, ?_, ?_⟩
  · rw [happ]
  · rw [happ]
  · unfold play_turn
    rw [hgo]
    simp only [Bool.false_eq_true, if_false]
    rw [hga]
    simp only []
    rw [happ]

theorem fallback_on_proposer_failure_witness :
    ChessGameState.new_game.game_over = false ∧
    toy_oracle.valid_fen ChessGameState.new_game.board = true ∧
    toy_oracle.legal_moves ChessGameState.new_game.board = [0] ∧
    toy_oracle.parse_san ChessGameState.new_game.board
      (toy_oracle.san ChessGameState.new_game.board 0) = some 0 ∧
    err_props 0 = .error "boom" ∧
    (get_ai_move toy_oracle ChessGameState.new_game err_props =
      .ok ⟨toy_oracle.san ChessGameState.new_game.board 0, 0,
        "Fallback move due to AI error: " ++ "boom"⟩ ∧
    (apply_move toy_oracle ChessGameState.new_game
      (toy_oracle.san ChessGameState.new_game.board 0)).1 = true ∧
    (apply_move toy_oracle ChessGameState.new_game
      (toy_oracle.san ChessGameState.new_game.board 0)).2.move_count =
        ChessGameState.new_game.move_count + 1 ∧
    play_turn toy_oracle ChessGameState.new_game err_props =
      .ok (⟨toy_oracle.san ChessGameState.new_game.board 0, 0,
          "Fallback move due to AI error: " ++ "boom"⟩,
        { (apply_move toy_oracle ChessGameState.new_game
            (toy_oracle.san ChessGameState.new_game.board 0)).2 with
            history := (apply_move toy_oracle ChessGameState.new_game
              (toy_oracle.san ChessGameState.new_game.board 0)).2.history ++
              [⟨toy_oracle.san ChessGameState.new_game.board 0, 0,
                "Fallback move due to AI error: " ++ "boom"⟩] })) :=
  ⟨rfl, rfl, rfl, rfl, rfl,
    fallback_on_proposer_failure toy_oracle ChessGameState.new_game err_props "boom" 0 []
      rfl rfl rfl rfl (Or.inl rfl)⟩

/-- C4: every reachable `GameState` keeps move count equal to history length,
side-to-move white exactly after an even number of applied moves (starting
from white), and terminal flag equal to the oracle's terminal report on the
current position (assuming the oracle does not already report the starting
position terminal, as real chess does not). -/
theorem reachable_state_invariants (o : Oracle Move) (st : ChessGameState)
    (h0 : o.is_game_over STARTING_FEN = false) (h : Reachable o st) :
    st.move_count = st.history.length ∧
    st.turn = (if st.move_count % 2 = 0 then "white" else "black") ∧
    st.game_over = o.is_game_over st.board := by
  induction h with
  | base => exact ⟨rfl, rfl, h0.symm⟩
  | step st p r st1 hre hpt ih =>
    obtain ⟨hcnt, hturn, hgov⟩ := ih
    obtain ⟨hgo, hga, st', ha, hst1⟩ := play_turn_ok hpt
    obtain ⟨hv, m, hp, hm, hchar⟩ := apply_move_ok ha
    refine ⟨?_, ?_, ?_⟩
    · rw [hst1, hchar]
      show st.move_count + 1 = (st.history ++ [r]).length
      simp [hcnt]
    · rw [hst1, hchar]
      show (if st.turn = "white" then "black" else "white") =
        (if (st.move_count + 1) % 2 = 0 then "white" else "black")
      by_cases hpar : st.move_count % 2 = 0
      · have hvt : st.turn = "white" := by rw [hturn, if_pos hpar]
        have h1 : ¬((st.move_count + 1) % 2 = 0) := by omega
        rw [hvt, if_pos rfl, if_neg h1]
      · have hvt : st.turn = "black" := by rw [hturn, if_neg hpar]
        have h1 : (st.move_count + 1) % 2 = 0 := by omega
        have hne : ¬("black" = "white") := by decide
        rw [hvt, if_neg hne, if_pos h1]
    · rw [hst1, hchar]
      show (st.game_over || o.is_game_over (o.push_fen st.board m)) =
        o.is_game_over (o.push_fen st.board m)
      rw [hgo, Bool.false_or]

theorem reachable_state_invariants_witness :
    toy_oracle.is_game_over STARTING_FEN = false ∧
    (ChessGameState.new_game.move_count = ChessGameState.new_game.history.length ∧
    ChessGameState.new_game.turn =
      (if ChessGameState.new_game.move_count % 2 = 0 then "white" else "black") ∧
    ChessGameState.new_game.game_over =
      toy_oracle.is_game_over ChessGameState.new_game.board) :=
  ⟨rfl, reachable_state_invariants toy_oracle ChessGameState.new_game rfl Reachable.base⟩

/-- C2: the match driver runs turns until the state is terminal or the move
count reaches `max_moves`; every applied move contributes exactly one log
entry; the summary mirrors the final state; the loop only exits on terminal,
move cap, or a hard-stopped turn; and a match that never reached a terminal
state is recorded with result `"Game incomplete"` and terminal flag `false`
(the summary's `game_over` field equals the state's flag). -/
theorem match_driver_completion (o : Oracle Move)
    (props : ChessGameState → Nat → Except String ChessMoveResponse)
    (date : String) (max_moves : Nat) (summary : GameSummary) (stF : ChessGameState)
    (h : play_full_game o props ChessGameState.new_game date max_moves = (summary, stF)) :
    summary.total_moves = stF.move_count ∧
    summary.moves.length = stF.move_count ∧
    summary.game_over = stF.game_over ∧
    summary.final_fen = stF.board ∧
    (stF.game_over = true ∨ max_moves ≤ stF.move_count ∨
      halted (play_turn o stF (props stF)) = true) ∧
    (stF.game_over = false → summary.result = "Game incomplete") := by
  have h1 : (play_full_game o props ChessGameState.new_game date max_moves).1 = summary :=
    congrArg Prod.fst h
  have h2 : (play_full_game o props ChessGameState.new_game date max_moves).2 = stF :=
    congrArg Prod.snd h
  subst h1
  subst h2
  obtain ⟨hcnt, hboard, hchain, hnum, hres⟩ :=
    loop_inv o props max_moves (max_moves + 1) ChessGameState.new_game []
      (log_inv_new_game o)
  have hexit := loop_exit o props max_moves (max_moves + 1) ChessGameState.new_game []
    (by simp only [ChessGameState.new_game]; omega)
  refine ⟨rfl, hcnt.symm, rfl, rfl, hexit, ?_⟩
  intro hng
  show result_or_incomplete
    (play_full_game_loop o props max_moves (max_moves + 1)
      ChessGameState.new_game []).1.result = "Game incomplete"
  rw [hres hng]
  rfl

theorem match_driver_completion_witness :
    play_full_game toy_oracle good_props ChessGameState.new_game "d" 1 =
      (w_summary, w_state) ∧
    (w_summary.total_moves = w_state.move_count ∧
    w_summary.moves.length = w_state.move_count ∧
    w_summary.game_over = w_state.game_over ∧
    w_summary.final_fen = w_state.board ∧
    (w_state.game_over = true ∨ 1 ≤ w_state.move_count ∨
      halted (play_turn toy_oracle w_state (good_props w_state)) = true) ∧
    (w_state.game_over = false → w_summary.result = "Game incomplete")) :=
  ⟨rfl, match_driver_completion toy_oracle good_props "d" 1 w_summary w_state rfl⟩

/-- C10: in the match log (and hence in the persisted record, which stores the
same `moves` array), the entry at 0-based index `j` — i.e. the `(j+1)`-th
applied half-move — carries `move_number = j+1` (a ply index), color white for
odd ply numbers and black for even ones, and a `fen` equal to the position
*resulting* from pushing its (re-parsed) move onto the previous entry's
position (the starting position for the first entry) — not the position the
move was played from. -/
theorem log_entry_indexing (o : Oracle Move)
    (props : ChessGameState → Nat → Except String ChessMoveResponse)
    (date : String) (max_moves : Nat) (summary : GameSummary) (stF : ChessGameState)
    (j : Nat) (entry : LogEntry)
    (h : play_full_game o props ChessGameState.new_game date max_moves = (summary, stF))
    (he : summary.moves.get? j = some entry) :
    entry.move_number = j + 1 ∧
    entry.color = (if (j + 1) % 2 = 1 then "white" else "black") ∧
    (match o.parse_san (prev_fen STARTING_FEN summary.moves j) entry.move with
     | none => False
     | some m => entry.fen = o.push_fen (prev_fen STARTING_FEN summary.moves j) m) := by
  have h1 : (play_full_game o props ChessGameState.new_game date max_moves).1 = summary :=
    congrArg Prod.fst h
  subst h1
  obtain ⟨hcnt, hboard, hchain, hnum, hres⟩ :=
    loop_inv o props max_moves (max_moves + 1) ChessGameState.new_game []
      (log_inv_new_game o)
  obtain ⟨hn1, hn2⟩ := hnum j entry he
  exact ⟨hn1, hn2, chained_index hchain he⟩

theorem log_entry_indexing_witness :
    play_full_game toy_oracle good_props ChessGameState.new_game "d" 1 =
      (w_summary, w_state) ∧
    w_summary.moves.get? 0 = some w_entry ∧
    (w_entry.move_number = 0 + 1 ∧
    w_entry.color = (if (0 + 1) % 2 = 1 then "white" else "black") ∧
    (match toy_oracle.parse_san (prev_fen STARTING_FEN w_summary.moves 0) w_entry.move with
     | none => False
     | some m => w_entry.fen =
         toy_oracle.push_fen (prev_fen STARTING_FEN w_summary.moves 0) m)) :=
  ⟨rfl, rfl,
    log_entry_indexing toy_oracle good_props "d" 1 w_summary w_state 0 w_entry rfl rfl⟩

/-- C8: save-then-replay round trip.  The record written for a completed match
(persistence is the identity on the summary dictionary), when reloaded by the
replay viewer — which starts from the standard starting position and re-parses
each recorded move against the rules oracle — regenerates exactly the recorded
move-by-move board sequence, and shows the same `total_moves` (the number of
logged half-moves, equal to the final move count) and the same `result` as the
in-memory record. -/
theorem save_replay_round_trip (o : Oracle Move)
    (props : ChessGameState → Nat → Except String ChessMoveResponse)
    (date : String) (max_moves : Nat) (summary : GameSummary) (stF : ChessGameState)
    (h : play_full_game o props ChessGameState.new_game date max_moves = (summary, stF)) :
    (replay_game o summary).boards = summary.moves.map LogEntry.fen ∧
    (replay_game o summary).total_moves = summary.moves.length ∧
    summary.moves.length = stF.move_count ∧
    (replay_game o summary).result = summary.result := by
  have h1 : (play_full_game o props ChessGameState.new_game date max_moves).1 = summary :=
    congrArg Prod.fst h
  have h2 : (play_full_game o props ChessGameState.new_game date max_moves).2 = stF :=
    congrArg Prod.snd h
  subst h1
  subst h2
  obtain ⟨hcnt, hboard, hchain, hnum, hres⟩ :=
    loop_inv o props max_moves (max_moves + 1) ChessGameState.new_game []
      (log_inv_new_game o)
  exact ⟨replay_boards_of_chained hchain, hcnt, hcnt.symm, rfl⟩

theorem save_replay_round_trip_witness :
    play_full_game toy_oracle good_props ChessGameState.new_game "d" 1 =
      (w_summary, w_state) ∧
    ((replay_game toy_oracle w_summary).boards = w_summary.moves.map LogEntry.fen ∧
    (replay_game toy_oracle w_summary).total_moves = w_summary.moves.length ∧
    w_summary.moves.length = w_state.move_count ∧
    (replay_game toy_oracle w_summary).result = w_summary.result) :=
  ⟨rfl, save_replay_round_trip toy_oracle good_props "d" 1 w_summary w_state rfl⟩

/-! ### Persistence: collision-free naming -/

theorem digitChar_inj_lt : ∀ a < 10, ∀ b < 10, Nat.digitChar a = Nat.digitChar b → a = b := by
  decide

theorem digits_map_inj : ∀ (l1 l2 : List Nat), (∀ x ∈ l1, x < 10) → (∀ x ∈ l2, x < 10) →
    l1.map Nat.digitChar = l2.map Nat.digitChar → l1 = l2 := by
  intro l1
  induction l1 with
  | nil =>
    intro l2 _ _ h
    cases l2 with
    | nil => rfl
    | cons b u => simp at h
  | cons a t ih =>
    intro l2 h1 h2 h
    cases l2 with
    | nil => simp at h
    | cons b u =>
      simp only [List.map_cons, List.cons.injEq] at h
      have ha : a < 10 := h1 a (List.mem_cons_self a t)
      have hb : b < 10 := h2 b (List.mem_cons_self b u)
      have hab := digitChar_inj_lt a ha b hb h.1
      subst hab
      rw [ih u (fun x hx => h1 x (List.mem_cons_of_mem _ hx))
        (fun x hx => h2 x (List.mem_cons_of_mem _ hx)) h.2]

/-- The decimal rendering of a positive number starts with a nonzero digit. -/
theorem nat_decimal_head_of_ne_zero {n : Nat} (hn : n ≠ 0) :
    ∃ d, d < 10 ∧ d ≠ 0 ∧ (nat_decimal n).head? = some (Nat.digitChar d) := by
  have hnil : Nat.digits 10 n ≠ [] := Nat.digits_ne_nil_iff_ne_zero.mpr hn
  refine ⟨(Nat.digits 10 n).getLast hnil, ?_, ?_, ?_⟩
  · exact Nat.digits_lt_base (by norm_num) (List.getLast_mem hnil)
  · exact Nat.getLast_digit_ne_zero 10 hn
  · rw [nat_decimal, if_neg hn, List.head?_reverse, List.getLast?_map,
      List.getLast?_eq_getLast _ hnil]
    rfl

theorem nat_decimal_inj {a b : Nat} (h : nat_decimal a = nat_decimal b) : a = b := by
  by_cases ha : a = 0 <;> by_cases hb : b = 0
  · omega
  · subst ha
    obtain ⟨d, hd10, hd0, hdh⟩ := nat_decimal_head_of_ne_zero hb
    have h0 : some '0' = some (Nat.digitChar d) := by
      rw [← hdh, ← h]
      rfl
    have h0d : ('0' : Char) = Nat.digitChar d := by injection h0
    have := digitChar_inj_lt 0 (by norm_num) d hd10 h0d
    omega
  · subst hb
    obtain ⟨d, hd10, hd0, hdh⟩ := nat_decimal_head_of_ne_zero ha
    have h0 : some '0' = some (Nat.digitChar d) := by
      rw [← hdh, h]
      rfl
    have h0d : ('0' : Char) = Nat.digitChar d := by injection h0
    have := digitChar_inj_lt 0 (by norm_num) d hd10 h0d
    omega
  · rw [nat_decimal, if_neg ha, nat_decimal, if_neg hb] at h
    have hmap := List.reverse_injective h
    have hdig := digits_map_inj (Nat.digits 10 a) (Nat.digits 10 b)
      (fun x hx => Nat.digits_lt_base (by norm_num) hx)
      (fun x hx => Nat.digits_lt_base (by norm_num) hx) hmap
    exact Nat.digits_inj_iff.mp hdig

theorem pad2_inj {a b : Nat} (h : pad2 a = pad2 b) : a = b := by
  have hd : (if a < 10 then '0' :: nat_decimal a else nat_decimal a) =
      (if b < 10 then '0' :: nat_decimal b else nat_decimal b) := congrArg String.data h
  by_cases ha : a < 10 <;> by_cases hb : b < 10
  · rw [if_pos ha, if_pos hb] at hd
    simp only [List.cons.injEq, true_and] at hd
    exact nat_decimal_inj hd
  · rw [if_pos ha, if_neg hb] at hd
    have hb0 : b ≠ 0 := by omega
    obtain ⟨d, hd10, hd0, hdh⟩ := nat_decimal_head_of_ne_zero hb0
    have h0 : some '0' = some (Nat.digitChar d) := by
      rw [← hdh, ← hd]
      rfl
    have h0d : ('0' : Char) = Nat.digitChar d := by injection h0
    have := digitChar_inj_lt 0 (by norm_num) d hd10 h0d
    omega
  · rw [if_neg ha, if_pos hb] at hd
    have ha0 : a ≠ 0 := by omega
    obtain ⟨d, hd10, hd0, hdh⟩ := nat_decimal_head_of_ne_zero ha0
    have h0 : some '0' = some (Nat.digitChar d) := by
      rw [← hdh, hd]
      rfl
    have h0d : ('0' : Char) = Nat.digitChar d := by injection h0
    have := digitChar_inj_lt 0 (by norm_num) d hd10 h0d
    omega
  · rw [if_neg ha, if_neg hb] at hd
    exact nat_decimal_inj hd

theorem suffixed_filepath_inj {date : String} {a b : Nat}
    (h : suffixed_filepath date a = suffixed_filepath date b) : a = b := by
  apply pad2_inj
  apply String.ext
  have hd := congrArg String.data h
  simp only [suffixed_filepath, String.data_append] at hd
  exact List.append_cancel_left (List.append_cancel_right hd)

theorem pad2_length_pos (n : Nat) : 0 < (pad2 n).length := by
  by_cases hn : n < 10
  · simp [pad2, String.length_mk, hn]
  · have hn0 : n ≠ 0 := by omega
    have hnil : Nat.digits 10 n ≠ [] := Nat.digits_ne_nil_iff_ne_zero.mpr hn0
    simp only [pad2, hn, if_false, String.length_mk, nat_decimal, hn0, ite_false,
      List.length_reverse, List.length_map]
    exact List.length_pos.mpr hnil

theorem game_ne_suffixed (date : String) (c : Nat) :
    game_filepath date ≠ suffixed_filepath date c := by
  intro h
  have hl := congrArg String.length h
  simp only [game_filepath, suffixed_filepath, String.length_append] at hl
  have hp := pad2_length_pos c
  have h1 : ("games/game_" : String).length = 11 := rfl
  have h2 : (".json" : String).length = 5 := rfl
  have h3 : ("_" : String).length = 1 := rfl
  rw [h1, h2, h3] at hl
  omega

/-- Pigeonhole: among the counters `1 .. existing.length + 1` some suffixed
name is free, because distinct counters yield distinct names. -/
theorem exists_free_counter (date : String) (existing : List String) :
    ∃ c, 1 ≤ c ∧ c ≤ existing.length + 1 ∧ suffixed_filepath date c ∉ existing := by
  by_contra hcon
  push_neg at hcon
  have hsub : ((List.range (existing.length + 1)).map
      (fun i => suffixed_filepath date (i + 1))) ⊆ existing := by
    intro x hx
    simp only [List.mem_map, List.mem_range] at hx
    obtain ⟨i, hi, rfl⟩ := hx
    exact hcon (i + 1) (by omega) (by omega)
  have hinj : Function.Injective (fun i => suffixed_filepath date (i + 1)) := by
    intro x y hxy
    have := suffixed_filepath_inj hxy
    omega
  have hnodup := (List.nodup_range (existing.length + 1)).map hinj
  have hlen := (hnodup.subperm hsub).length_le
  simp only [List.length_map, List.length_range] at hlen
  omega

/-- With an unclaimed counter in the fuel window (or an already free
candidate), the collision loop returns a path that does not exist yet. -/
theorem save_loop_free (date : String) (existing : List String) :
    ∀ fuel counter fp,
      (fp ∉ existing ∨
        ∃ c, counter ≤ c ∧ c < counter + fuel ∧ suffixed_filepath date c ∉ existing) →
      save_filepath_loop date existing fuel counter fp ∉ existing := by
  intro fuel
  induction fuel with
  | zero =>
    intro counter fp h
    rcases h with h | ⟨c, hc1, hc2, -⟩
    · exact h
    · omega
  | succ n ih =>
    intro counter fp h
    by_cases hfp : fp ∈ existing
    · unfold save_filepath_loop
      rw [if_pos hfp]
      apply ih
      rcases h with h | ⟨c, hc1, hc2, hc3⟩
      · exact absurd hfp h
      · by_cases hc : c = counter
        · subst hc
          exact Or.inl hc3
        · exact Or.inr ⟨c, by omega, by omega, hc3⟩
    · unfold save_filepath_loop
      rw [if_neg hfp]
      exact hfp

/-- The path chosen by `save_game` never names an existing file. -/
theorem save_filepath_not_mem (date : String) (existing : List String) :
    save_filepath date existing ∉ existing := by
  obtain ⟨c, h1, h2, h3⟩ := exists_free_counter date existing
  apply save_loop_free
  by_cases hb : game_filepath date ∈ existing
  · exact Or.inr ⟨c, h1, by omega, h3⟩
  · exact Or.inl hb

/-- C7: saving never overwrites.  The chosen path (timestamp-keyed, then
disambiguated by the incrementing two-digit counter) is always absent from
the set of existing files, so two saves in the same timestamp window — where
the second save sees the first file on disk — produce two distinct files. -/
theorem save_collision_free (date : String) (existing : List String) :
    save_filepath date existing ∉ existing ∧
    save_filepath date (save_filepath date existing :: existing) ∉
      (save_filepath date existing :: existing) ∧
    save_filepath date (save_filepath date existing :: existing) ≠
      save_filepath date existing := by
  have h1 := save_filepath_not_mem date existing
  have h2 := save_filepath_not_mem date (save_filepath date existing :: existing)
  refine ⟨h1, h2, ?_⟩
  intro heq
  apply h2
  rw [heq]
  exact List.mem_cons_self _ _

end GeminiChess
